import Mathlib

/-!
Verification of the anchored-path router
(`qiskit_metal/components/interconnects/anchored_path.py`).

Coordinates are embedded as exact rationals (`ℚ`); the source's numpy
floating-point coordinates become `ℚ` so that every comparison and division
in the source is represented exactly.  Points are pairs, segments are pairs
of points, obstacle bounding boxes are four rationals.
-/

/-- A 2D coordinate, the embedding of a numpy length-2 array `[x, y]`. -/
structure Pt where
  x : ℚ
  y : ℚ
deriving DecidableEq, Repr

/-- Componentwise difference of coordinates, the embedding of numpy `v - w`. -/
def Pt.sub (v w : Pt) : Pt := ⟨v.x - w.x, v.y - w.y⟩

/-- Dot product, the embedding of `np.dot(v, w)` on length-2 arrays. -/
def Pt.dot (v w : Pt) : ℚ := v.x * w.x + v.y * w.y

/-- The `elif` branch of `intersecting` (anchored_path.py lines 55-67) after
the source's swap: segment `(p0s, p0e)` is the vertical one, `(p1s, p1e)` the
non-vertical one.  The source's locals `m` and `b`
(`m = (y1_end - y1_start) / (x1_end - x1_start)`,
`b = (x1_end * y1_start - x1_start * y1_end) / (x1_end - x1_start)`) are
written inline. -/
def vertCase (p0s p0e p1s p1e : Pt) : Bool :=
  decide (min p1s.x p1e.x ≤ p0s.x ∧ p0s.x ≤ max p1s.x p1e.x ∧
    min p0s.y p0e.y ≤
      (p1e.y - p1s.y) / (p1e.x - p1s.x) * p0s.x +
        (p1e.x * p1s.y - p1s.x * p1e.y) / (p1e.x - p1s.x) ∧
    (p1e.y - p1s.y) / (p1e.x - p1s.x) * p0s.x +
        (p1e.x * p1s.y - p1s.x * p1e.y) / (p1e.x - p1s.x) ≤ max p0s.y p0e.y)

/-- The final `else` branch of `intersecting` (lines 68-87): neither segment is
vertical.  The source's locals are written inline:
`b0 = (y0_start * x0_end - y0_end * x0_start) / (x0_end - x0_start)`,
`b1 = (y1_start * x1_end - y1_end * x1_start) / (x1_end - x1_start)`,
`m0 = (y0_end - y0_start) / (x0_end - x0_start)`,
`m1 = (y1_end - y1_start) / (x1_end - x1_start)`,
`x_intersect = (b1 - b0) / (m0 - m1)`. -/
def genCase (a b c d : Pt) : Bool :=
  if (d.x - c.x) * (b.y - a.y) = (b.x - a.x) * (d.y - c.y) then
    if (a.y * b.x - b.y * a.x) / (b.x - a.x) = (c.y * d.x - d.y * c.x) / (d.x - c.x) then
      decide (¬ (min a.x b.x > max c.x d.x ∨ min c.x d.x > max a.x b.x))
    else false
  else
    decide (min a.x b.x ≤
        ((c.y * d.x - d.y * c.x) / (d.x - c.x) - (a.y * b.x - b.y * a.x) / (b.x - a.x)) /
          ((b.y - a.y) / (b.x - a.x) - (d.y - c.y) / (d.x - c.x)) ∧
      ((c.y * d.x - d.y * c.x) / (d.x - c.x) - (a.y * b.x - b.y * a.x) / (b.x - a.x)) /
          ((b.y - a.y) / (b.x - a.x) - (d.y - c.y) / (d.x - c.x)) ≤ max a.x b.x ∧
      min c.x d.x ≤
        ((c.y * d.x - d.y * c.x) / (d.x - c.x) - (a.y * b.x - b.y * a.x) / (b.x - a.x)) /
          ((b.y - a.y) / (b.x - a.x) - (d.y - c.y) / (d.x - c.x)) ∧
      ((c.y * d.x - d.y * c.x) / (d.x - c.x) - (a.y * b.x - b.y * a.x) / (b.x - a.x)) /
          ((b.y - a.y) / (b.x - a.x) - (d.y - c.y) / (d.x - c.x)) ≤ max c.x d.x)

/-- Embedding of `intersecting(a, b, c, d)` (anchored_path.py lines 30-87):
whether segment `ab` intersects or overlaps segment `cd`.  The source's
`x0_start` is `a.x`, `x0_end` is `b.x`, `x1_start` is `c.x`, `x1_end` is `d.x`,
similarly for `y`.  The swap at lines 58-61 (so that "line 0" is the vertical
one) becomes the argument order of `vertCase`. -/
def intersecting (a b c d : Pt) : Bool :=
  if (a.x = b.x) ∧ (c.x = d.x) then
    if b.x = c.x then
      decide (¬ (min a.y b.y > max c.y d.y ∨ min c.y d.y > max a.y b.y))
    else false
  else if (a.x = b.x) ∨ (c.x = d.x) then
    if c.x = d.x then vertCase c d a b else vertCase a b c d
  else
    genCase a b c d

/-! ## Geometric model: points of a closed segment

`onSeg a b p` is the textbook description of `p` lying on the closed segment
from `a` to `b`; `segShare a b c d` says the two closed segments have at least
one common point.  These describe what the spec means by "intersect": they are
the yardstick against which `intersecting` is measured. -/

/-- `p` lies on the closed segment from `a` to `b`. -/
def onSeg (a b p : Pt) : Prop :=
  ∃ t : ℚ, 0 ≤ t ∧ t ≤ 1 ∧ p.x = a.x + t * (b.x - a.x) ∧ p.y = a.y + t * (b.y - a.y)

/-- The closed segments `ab` and `cd` share at least one common point. -/
def segShare (a b c d : Pt) : Prop := ∃ p : Pt, onSeg a b p ∧ onSeg c d p

theorem segShare_swap {a b c d : Pt} : segShare a b c d ↔ segShare c d a b :=
  ⟨fun ⟨p, h1, h2⟩ => ⟨p, h2, h1⟩, fun ⟨p, h1, h2⟩ => ⟨p, h2, h1⟩⟩

/-- A convex combination `u + t * (v - u)` with `t ∈ [0, 1]` stays between
`min u v` and `max u v`. -/
theorem convex_mem {u v t : ℚ} (h0 : 0 ≤ t) (h1 : t ≤ 1) :
    min u v ≤ u + t * (v - u) ∧ u + t * (v - u) ≤ max u v := by
  rcases le_total u v with h | h
  · rw [min_eq_left h, max_eq_right h]
    constructor <;> nlinarith
  · rw [min_eq_right h, max_eq_left h]
    constructor <;> nlinarith

/-- The coordinates of a point on a segment stay within the coordinate ranges
of the segment's endpoints. -/
theorem onSeg_bounds {a b p : Pt} (h : onSeg a b p) :
    (min a.x b.x ≤ p.x ∧ p.x ≤ max a.x b.x) ∧
      (min a.y b.y ≤ p.y ∧ p.y ≤ max a.y b.y) := by
  obtain ⟨t, ht0, ht1, hx, hy⟩ := h
  rw [hx, hy]
  exact ⟨convex_mem ht0 ht1, convex_mem ht0 ht1⟩

/-- The parameter `(w - u) / (v - u)` of a value `w` between `u` and `v`
lies in `[0, 1]`. -/
theorem param_bounds {u v w : ℚ} (hne : u ≠ v) (h1 : min u v ≤ w) (h2 : w ≤ max u v) :
    0 ≤ (w - u) / (v - u) ∧ (w - u) / (v - u) ≤ 1 := by
  rcases lt_or_gt_of_ne hne with h | h
  · rw [min_eq_left h.le, max_eq_right h.le] at *
    constructor
    · exact div_nonneg (by linarith) (by linarith)
    · rw [div_le_one (by linarith)]
      linarith
  · rw [min_eq_right h.le, max_eq_left h.le] at *
    constructor
    · exact div_nonneg_iff.mpr (Or.inr ⟨by linarith, by linarith⟩)
    · rw [div_le_iff_of_neg (by linarith)]
      linarith

/-- Membership of a vertical segment (`a.x = b.x`): the point shares the
common `x` and its `y` lies in the segment's `y`-range. -/
theorem onSeg_vert_iff {a b p : Pt} (h : a.x = b.x) :
    onSeg a b p ↔ p.x = a.x ∧ min a.y b.y ≤ p.y ∧ p.y ≤ max a.y b.y := by
  constructor
  · rintro ⟨t, ht0, ht1, hx, hy⟩
    refine ⟨?_, ?_, ?_⟩
    · rw [hx, ← h]; ring
    · rw [hy]; exact (convex_mem ht0 ht1).1
    · rw [hy]; exact (convex_mem ht0 ht1).2
  · rintro ⟨hx, hmin, hmax⟩
    by_cases hy : a.y = b.y
    · rw [← hy] at hmin hmax
      rw [min_self] at hmin
      rw [max_self] at hmax
      have hpy : p.y = a.y := le_antisymm hmax hmin
      exact ⟨0, le_refl 0, zero_le_one, by rw [hx, ← h]; ring, by rw [hpy]; ring⟩
    · refine ⟨(p.y - a.y) / (b.y - a.y), (param_bounds hy hmin hmax).1,
        (param_bounds hy hmin hmax).2, by rw [hx, ← h]; ring, ?_⟩
      rw [div_mul_cancel₀ _ (sub_ne_zero.mpr (Ne.symm hy))]
      ring

/-- Two closed intervals `[l1, h1]` and `[l2, h2]` share a value exactly when
neither lies entirely above the other, the 1D overlap test the source uses. -/
theorem interval_exists {l1 h1 l2 h2 : ℚ} (ha : l1 ≤ h1) (hb : l2 ≤ h2) :
    (∃ y : ℚ, (l1 ≤ y ∧ y ≤ h1) ∧ l2 ≤ y ∧ y ≤ h2) ↔ ¬ (l1 > h2 ∨ l2 > h1) := by
  constructor
  · rintro ⟨y, ⟨hy1, hy2⟩, hy3, hy4⟩
    push_neg
    exact ⟨le_trans hy1 hy4, le_trans hy3 hy2⟩
  · intro h
    push_neg at h
    exact ⟨max l1 l2, ⟨le_max_left _ _, max_le ha h.2⟩, le_max_right _ _, max_le h.1 hb⟩

/-- Membership of a non-vertical segment (`a.x ≠ b.x`): the point's `x` lies in
the segment's `x`-range and its `y` satisfies the line equation
`y = m * x + b` with the slope and intercept formulas the source uses. -/
theorem onSeg_nonvert_iff {a b p : Pt} (hne : a.x ≠ b.x) :
    onSeg a b p ↔ min a.x b.x ≤ p.x ∧ p.x ≤ max a.x b.x ∧
      p.y = (b.y - a.y) / (b.x - a.x) * p.x + (a.y * b.x - b.y * a.x) / (b.x - a.x) := by
  have hd : b.x - a.x ≠ 0 := sub_ne_zero.mpr (Ne.symm hne)
  constructor
  · rintro ⟨t, ht0, ht1, hx, hy⟩
    refine ⟨by rw [hx]; exact (convex_mem ht0 ht1).1,
      by rw [hx]; exact (convex_mem ht0 ht1).2, ?_⟩
    rw [hx, hy]
    field_simp
    ring
  · rintro ⟨hmin, hmax, hline⟩
    refine ⟨(p.x - a.x) / (b.x - a.x), (param_bounds hne hmin hmax).1,
      (param_bounds hne hmin hmax).2, ?_, ?_⟩
    · rw [div_mul_cancel₀ _ hd]; ring
    · rw [hline]
      field_simp
      ring

/-- The `elif` computation of `intersecting` is correct: with `(p0s, p0e)`
vertical and `(p1s, p1e)` non-vertical, `vertCase` decides whether the two
closed segments share a point. -/
theorem vertCase_correct {p0s p0e p1s p1e : Pt} (h0 : p0s.x = p0e.x) (h1 : p1s.x ≠ p1e.x) :
    vertCase p0s p0e p1s p1e = true ↔ segShare p0s p0e p1s p1e := by
  rw [vertCase, decide_eq_true_iff]
  constructor
  · rintro ⟨hx1, hx2, hy1, hy2⟩
    refine ⟨⟨p0s.x, (p1e.y - p1s.y) / (p1e.x - p1s.x) * p0s.x +
        (p1e.x * p1s.y - p1s.x * p1e.y) / (p1e.x - p1s.x)⟩, ?_, ?_⟩
    · rw [onSeg_vert_iff h0]
      exact ⟨rfl, hy1, hy2⟩
    · rw [onSeg_nonvert_iff h1]
      refine ⟨hx1, hx2, ?_⟩
      show (p1e.y - p1s.y) / (p1e.x - p1s.x) * p0s.x +
          (p1e.x * p1s.y - p1s.x * p1e.y) / (p1e.x - p1s.x) =
        (p1e.y - p1s.y) / (p1e.x - p1s.x) * p0s.x +
          (p1s.y * p1e.x - p1e.y * p1s.x) / (p1e.x - p1s.x)
      ring_nf
  · rintro ⟨p, hp0, hp1⟩
    rw [onSeg_vert_iff h0] at hp0
    rw [onSeg_nonvert_iff h1] at hp1
    obtain ⟨hpx, hpy1, hpy2⟩ := hp0
    obtain ⟨hq1, hq2, hq3⟩ := hp1
    rw [hpx] at hq1 hq2
    have hyeq : (p1e.y - p1s.y) / (p1e.x - p1s.x) * p0s.x +
        (p1e.x * p1s.y - p1s.x * p1e.y) / (p1e.x - p1s.x) = p.y := by
      rw [hq3, hpx]
      ring_nf
    rw [hyeq]
    exact ⟨hq1, hq2, hpy1, hpy2⟩

/-- Two non-vertical segments share a point exactly when some `x` lies in both
`x`-ranges and the two line equations meet there. -/
theorem segShare_nonvert {a b c d : Pt} (hab : a.x ≠ b.x) (hcd : c.x ≠ d.x) :
    segShare a b c d ↔ ∃ x : ℚ,
      (min a.x b.x ≤ x ∧ x ≤ max a.x b.x) ∧ (min c.x d.x ≤ x ∧ x ≤ max c.x d.x) ∧
      (b.y - a.y) / (b.x - a.x) * x + (a.y * b.x - b.y * a.x) / (b.x - a.x)
        = (d.y - c.y) / (d.x - c.x) * x + (c.y * d.x - d.y * c.x) / (d.x - c.x) := by
  constructor
  · rintro ⟨p, hp0, hp1⟩
    rw [onSeg_nonvert_iff hab] at hp0
    rw [onSeg_nonvert_iff hcd] at hp1
    exact ⟨p.x, ⟨hp0.1, hp0.2.1⟩, ⟨hp1.1, hp1.2.1⟩, by rw [← hp0.2.2, ← hp1.2.2]⟩
  · rintro ⟨x, h0, h1, heq⟩
    refine ⟨⟨x, (b.y - a.y) / (b.x - a.x) * x + (a.y * b.x - b.y * a.x) / (b.x - a.x)⟩, ?_, ?_⟩
    · rw [onSeg_nonvert_iff hab]
      exact ⟨h0.1, h0.2, rfl⟩
    · rw [onSeg_nonvert_iff hcd]
      exact ⟨h1.1, h1.2, heq⟩

/-- The `else` computation of `intersecting` is correct: with neither segment
vertical, `genCase` decides whether the two closed segments share a point. -/
theorem genCase_correct {a b c d : Pt} (hab : a.x ≠ b.x) (hcd : c.x ≠ d.x) :
    genCase a b c d = true ↔ segShare a b c d := by
  have hd0 : b.x - a.x ≠ 0 := sub_ne_zero.mpr (Ne.symm hab)
  have hd1 : d.x - c.x ≠ 0 := sub_ne_zero.mpr (Ne.symm hcd)
  rw [genCase, segShare_nonvert hab hcd]
  set m0 := (b.y - a.y) / (b.x - a.x) with hm0
  set m1 := (d.y - c.y) / (d.x - c.x) with hm1
  set b0 := (a.y * b.x - b.y * a.x) / (b.x - a.x) with hb0
  set b1 := (c.y * d.x - d.y * c.x) / (d.x - c.x) with hb1
  split_ifs with hpar hbeq
  · have hm : m0 = m1 := by
      rw [hm0, hm1, div_eq_div_iff hd0 hd1]
      linear_combination hpar
    rw [decide_eq_true_iff]
    constructor
    · intro h
      obtain ⟨x, hx1, hx2⟩ := (interval_exists min_le_max min_le_max).mpr h
      exact ⟨x, hx1, hx2, by rw [hm, hbeq]⟩
    · rintro ⟨x, hA, hB, -⟩
      exact (interval_exists min_le_max min_le_max).mp ⟨x, hA, hB⟩
  · have hm : m0 = m1 := by
      rw [hm0, hm1, div_eq_div_iff hd0 hd1]
      linear_combination hpar
    constructor
    · intro h
      exact h.elim
    · rintro ⟨x, -, -, heq⟩
      rw [hm] at heq
      exact absurd (by linarith : b0 = b1) hbeq
  · have hm : m0 ≠ m1 := by
      intro h
      apply hpar
      rw [hm0, hm1, div_eq_div_iff hd0 hd1] at h
      linear_combination h
    rw [decide_eq_true_iff]
    constructor
    · rintro ⟨hx1, hx2, hx3, hx4⟩
      refine ⟨(b1 - b0) / (m0 - m1), ⟨hx1, hx2⟩, ⟨hx3, hx4⟩, ?_⟩
      have h5 : (b1 - b0) / (m0 - m1) * (m0 - m1) = b1 - b0 :=
        div_mul_cancel₀ _ (sub_ne_zero.mpr hm)
      linear_combination h5
    · rintro ⟨x, hA, hB, heq⟩
      have hx : x = (b1 - b0) / (m0 - m1) := by
        rw [eq_div_iff (sub_ne_zero.mpr hm)]
        linear_combination heq
      rw [← hx]
      exact ⟨hA.1, hA.2, hB.1, hB.2⟩

/-- Full correctness of the source's segment-intersection predicate over exact
rational arithmetic: `intersecting a b c d` returns `true` exactly when the
closed segments `ab` and `cd` share at least one common point. -/
theorem intersecting_correct (a b c d : Pt) :
    intersecting a b c d = true ↔ segShare a b c d := by
  rw [intersecting]
  split_ifs with h1 h2 h3 h4
  · rw [decide_eq_true_iff]
    constructor
    · intro h
      obtain ⟨y, hy1, hy2⟩ := (interval_exists min_le_max min_le_max).mpr h
      refine ⟨⟨a.x, y⟩, ?_, ?_⟩
      · rw [onSeg_vert_iff h1.1]
        exact ⟨rfl, hy1⟩
      · rw [onSeg_vert_iff h1.2]
        refine ⟨?_, hy2⟩
        show a.x = c.x
        rw [h1.1, h2]
    · rintro ⟨p, hp0, hp1⟩
      rw [onSeg_vert_iff h1.1] at hp0
      rw [onSeg_vert_iff h1.2] at hp1
      exact (interval_exists min_le_max min_le_max).mp ⟨p.y, hp0.2, hp1.2⟩
  · constructor
    · intro h
      exact h.elim
    · rintro ⟨p, hp0, hp1⟩
      rw [onSeg_vert_iff h1.1] at hp0
      rw [onSeg_vert_iff h1.2] at hp1
      refine absurd ?_ h2
      rw [← h1.1, ← hp0.1, hp1.1]
  · have hab : a.x ≠ b.x := fun h => h1 ⟨h, h4⟩
    rw [vertCase_correct h4 hab]
    exact segShare_swap
  · have hax : a.x = b.x := h3.resolve_right h4
    exact vertCase_correct hax h4
  · have hab : a.x ≠ b.x := fun h => h3 (Or.inl h)
    have hcd : c.x ≠ d.x := fun h => h3 (Or.inr h)
    exact genCase_correct hab hcd

/-! ## Obstruction checker (`RouteAnchors.unobstructed`, lines 118-142) -/

/-- An axis-aligned obstacle bounding box, the tuple returned by
`qgeometry_bounds()`. -/
structure BBox where
  xmin : ℚ
  ymin : ℚ
  xmax : ℚ
  ymax : ℚ
deriving DecidableEq, Repr

/-- Embedding of `RouteAnchors.unobstructed(segment)` (lines 118-142).  The
obstacle registry (`self.design.components` with their `qgeometry_bounds()`)
is passed explicitly as the list of bounding boxes; the segment is the pair
`(s0, s1)`.  For each box the source builds corners
`p = (xmin, ymin)`, `q = (xmin, ymax)`, `r = (xmax, ymin)`, `s = (xmax, ymax)`
and tests the segment against the corner pairs
`(p, q), (p, r), (r, s), (q, s)`; it returns `False` on the first box with an
intersection and `True` otherwise. -/
def unobstructed (obstacles : List BBox) (s0 s1 : Pt) : Bool :=
  obstacles.all fun box =>
    !(intersecting s0 s1 ⟨box.xmin, box.ymin⟩ ⟨box.xmin, box.ymax⟩ ||
      intersecting s0 s1 ⟨box.xmin, box.ymin⟩ ⟨box.xmax, box.ymin⟩ ||
      intersecting s0 s1 ⟨box.xmax, box.ymin⟩ ⟨box.xmax, box.ymax⟩ ||
      intersecting s0 s1 ⟨box.xmin, box.ymax⟩ ⟨box.xmax, box.ymax⟩)

/-- The four corner-to-corner segments the source actually tests, built from
the corner pairs `(p, q), (p, r), (r, s), (q, s)` of lines 134-138: the left,
bottom, right and top edges of the box. -/
def sourceTestedSegs (box : BBox) : List (Pt × Pt) :=
  [(⟨box.xmin, box.ymin⟩, ⟨box.xmin, box.ymax⟩),
   (⟨box.xmin, box.ymin⟩, ⟨box.xmax, box.ymin⟩),
   (⟨box.xmax, box.ymin⟩, ⟨box.xmax, box.ymax⟩),
   (⟨box.xmin, box.ymax⟩, ⟨box.xmax, box.ymax⟩)]

/-- The four corner-to-corner segments named by the claim: the top edge, the
bottom edge, and the two diagonals of the box. -/
def claimTestedSegs (box : BBox) : List (Pt × Pt) :=
  [(⟨box.xmin, box.ymax⟩, ⟨box.xmax, box.ymax⟩),
   (⟨box.xmin, box.ymin⟩, ⟨box.xmax, box.ymin⟩),
   (⟨box.xmin, box.ymin⟩, ⟨box.xmax, box.ymax⟩),
   (⟨box.xmin, box.ymax⟩, ⟨box.xmax, box.ymin⟩)]

/-- Both endpoints of a point strictly inside a box: strictly between the
box's `x` bounds and strictly between its `y` bounds. -/
def strictlyInside (box : BBox) (p : Pt) : Prop :=
  box.xmin < p.x ∧ p.x < box.xmax ∧ box.ymin < p.y ∧ p.y < box.ymax

/-! ## Division sites of `intersecting`

`divisorsReached` mirrors the branch structure of `intersecting` and lists the
divisor of every division the source evaluates on the way: none in the
both-vertical branch (lines 48-54); the non-vertical segment's `x`-difference
in the `elif` branch (lines 62-63, after the swap); the two `x`-differences
for `b0`/`b1` (lines 70-71) and, when the slopes differ, additionally
`m0 - m1` (line 83) in the `else` branch. -/
def divisorsReached (a b c d : Pt) : List ℚ :=
  if (a.x = b.x) ∧ (c.x = d.x) then []
  else if (a.x = b.x) ∨ (c.x = d.x) then
    if c.x = d.x then [b.x - a.x] else [d.x - c.x]
  else
    if (d.x - c.x) * (b.y - a.y) = (b.x - a.x) * (d.y - c.y) then
      [b.x - a.x, d.x - c.x]
    else
      [b.x - a.x, d.x - c.x,
        (b.y - a.y) / (b.x - a.x) - (d.y - c.y) / (d.x - c.x)]

/-- No input makes `intersecting` divide by zero: every divisor at every
division site it reaches is nonzero. -/
theorem divisorsReached_ne_zero (a b c d : Pt) :
    (0 : ℚ) ∉ divisorsReached a b c d := by
  rw [divisorsReached]
  split_ifs with h1 h2 h3 h4
  · simp
  · have hab : a.x ≠ b.x := fun h => h1 ⟨h, h3⟩
    simp only [List.mem_singleton]
    intro h
    exact hab (by linarith)
  · have hcd : c.x ≠ d.x := h3
    simp only [List.mem_singleton]
    intro h
    exact hcd (by linarith)
  · have hab : a.x ≠ b.x := fun h => h2 (Or.inl h)
    have hcd : c.x ≠ d.x := fun h => h2 (Or.inr h)
    simp only [List.mem_cons, List.not_mem_nil, or_false]
    rintro (h | h)
    · exact hab (by linarith)
    · exact hcd (by linarith)
  · have hab : a.x ≠ b.x := fun h => h2 (Or.inl h)
    have hcd : c.x ≠ d.x := fun h => h2 (Or.inr h)
    have hd0 : b.x - a.x ≠ 0 := sub_ne_zero.mpr (Ne.symm hab)
    have hd1 : d.x - c.x ≠ 0 := sub_ne_zero.mpr (Ne.symm hcd)
    have hm : (b.y - a.y) / (b.x - a.x) - (d.y - c.y) / (d.x - c.x) ≠ 0 := by
      intro h
      apply h4
      have h5 : (b.y - a.y) / (b.x - a.x) = (d.y - c.y) / (d.x - c.x) := by linarith
      rw [div_eq_div_iff hd0 hd1] at h5
      linear_combination h5
    simp only [List.mem_cons, List.not_mem_nil, or_false]
    rintro (h | h | h)
    · exact hab (by linarith)
    · exact hcd (by linarith)
    · exact hm h.symm

/-! ## Leg planner (`RouteAnchors.connect_simple`, lines 144-239)

A directed route point has a position and an optional direction
(`QRoutePoint`); `connect_simple` reads `start_pt.direction` unconditionally
(`np.dot(start_direction, ...)`), so the start direction is a required
argument here, while the end direction stays optional.  The option
`advanced.avoid_collision` and the obstacle registry consulted by
`unobstructed` are explicit arguments. -/

/-- `end_direction is None or f(end_direction)`: the guard pattern the source
uses at lines 179, 197, 200, 221, 228, 231, 234 and 237. -/
def noneOr (ed : Option Pt) (f : Pt → Bool) : Bool :=
  match ed with
  | none => true
  | some d2 => f d2

/-- `corner1 = np.array([start[0], end[1]])` (line 188). -/
def corner1 (s e : Pt) : Pt := ⟨s.x, e.y⟩

/-- `corner2 = np.array([end[0], start[1]])` (line 189). -/
def corner2 (s e : Pt) : Pt := ⟨e.x, s.y⟩

/-- `stop_direction` (lines 167-173): along `x` for a "wide" start/end
rectangle (`offsetx >= offsety`), along `y` for a "tall" one. -/
def stopDirection (s e : Pt) : Pt :=
  if |e.x - s.x| ≥ |e.y - s.y| then ⟨e.x - s.x, 0⟩ else ⟨0, e.y - s.y⟩

/-- `corner3` (lines 205-211): one end of the segment bisecting the longer
rectangle, chosen by the truthiness of `stop_direction[0]`. -/
def corner3 (s e : Pt) : Pt :=
  if (stopDirection s e).x ≠ 0 then ⟨(s.x + e.x) / 2, s.y⟩ else ⟨s.x, (s.y + e.y) / 2⟩

/-- `corner4` (lines 207-212). -/
def corner4 (s e : Pt) : Pt :=
  if (stopDirection s e).x ≠ 0 then ⟨(s.x + e.x) / 2, e.y⟩ else ⟨e.x, (s.y + e.y) / 2⟩

/-- `corner5` (lines 208-213). -/
def corner5 (s e : Pt) : Pt :=
  if (stopDirection s e).x ≠ 0 then ⟨s.x, (s.y + e.y) / 2⟩ else ⟨(s.x + e.x) / 2, s.y⟩

/-- `corner6` (lines 209-214). -/
def corner6 (s e : Pt) : Pt :=
  if (stopDirection s e).x ≠ 0 then ⟨e.x, (s.y + e.y) / 2⟩ else ⟨(s.x + e.x) / 2, e.y⟩

/-- `startc1end` / `startc2end` (lines 190-195): when `avoid_collision` both
sub-segments of an L through corner `c` must be unobstructed, otherwise the
flag is unconditionally true. -/
def cornerClear (avoid : Bool) (obs : List BBox) (s c e : Pt) : Bool :=
  if avoid then unobstructed obs s c && unobstructed obs c e else true

/-- `startc3c4end` / `startc5c6end` (lines 215-219): the three sub-segments of
an S through corners `c, c2` must be unobstructed when `avoid_collision`. -/
def sClear (avoid : Bool) (obs : List BBox) (s c c2 e : Pt) : Bool :=
  if avoid then
    unobstructed obs s c && unobstructed obs c c2 && unobstructed obs c2 e
  else true

/-- The relaxed fallback (lines 224-238): the four shapes re-tested with the
direction constraints relaxed to `≥ 0`, first success wins, else `[]`.  In the
source these are four consecutive `if` statements whose failed inner test
falls through to the next shape, which flattens to this chain. -/
def relaxedPart (avoid : Bool) (obs : List BBox) (sd : Pt) (s : Pt) (ed : Option Pt) (e : Pt) :
    List Pt :=
  if Pt.dot sd (Pt.sub (corner1 s e) s) ≥ 0 ∧ cornerClear avoid obs s (corner1 s e) e = true ∧
      noneOr ed (fun d2 => decide (Pt.dot d2 (Pt.sub (corner1 s e) e) ≥ 0)) = true then
    [s, corner1 s e, e]
  else if Pt.dot sd (Pt.sub (corner2 s e) s) ≥ 0 ∧ cornerClear avoid obs s (corner2 s e) e = true ∧
      noneOr ed (fun d2 => decide (Pt.dot d2 (Pt.sub (corner2 s e) e) ≥ 0)) = true then
    [s, corner2 s e, e]
  else if Pt.dot sd (Pt.sub (corner3 s e) s) ≥ 0 ∧
      sClear avoid obs s (corner3 s e) (corner4 s e) e = true ∧
      noneOr ed (fun d2 => decide (Pt.dot d2 (Pt.sub (corner4 s e) e) ≥ 0)) = true then
    [s, corner3 s e, corner4 s e, e]
  else if Pt.dot sd (Pt.sub (corner5 s e) s) ≥ 0 ∧
      sClear avoid obs s (corner5 s e) (corner6 s e) e = true ∧
      noneOr ed (fun d2 => decide (Pt.dot d2 (Pt.sub (corner6 s e) e) ≥ 0)) = true then
    [s, corner5 s e, corner6 s e, e]
  else []

/-- The perfectly-aligned S-shape test (lines 220-223) followed by the relaxed
fallback it falls through to on failure. -/
def sPart (avoid : Bool) (obs : List BBox) (sd : Pt) (s : Pt) (ed : Option Pt) (e : Pt) :
    List Pt :=
  if Pt.dot sd (stopDirection s e) < 0 ∧ Pt.dot sd (Pt.sub (corner3 s e) s) > 0 ∧
      sClear avoid obs s (corner3 s e) (corner4 s e) e = true ∧
      noneOr ed (fun d2 => decide (Pt.dot d2 (Pt.sub (corner4 s e) e) > 0)) = true then
    [s, corner3 s e, corner4 s e, e]
  else relaxedPart avoid obs sd s ed e

/-- Embedding of `RouteAnchors.connect_simple(start_pt, end_pt)` (lines
144-239).  `sd`/`s` are `start_pt.direction`/`start_pt.position`, `ed`/`e`
are `end_pt.direction`/`end_pt.position`.  The collinear branch is lines
175-181; the perfect L tests are the `if`/`elif` of lines 196-201, whose
failed inner test falls through to the S-shape section (`sPart`), as does a
failed `elif`; the final `return []` is line 239. -/
def connect_simple (avoid : Bool) (obs : List BBox) (sd : Pt) (s : Pt) (ed : Option Pt)
    (e : Pt) : List Pt :=
  if s.x = e.x ∨ s.y = e.y then
    if Pt.dot sd (Pt.sub e s) ≥ 0 ∧
        noneOr ed (fun d2 => decide (Pt.dot (Pt.sub e s) d2 ≤ 0)) = true then
      [s, e]
    else []
  else
    if Pt.dot sd (Pt.sub (corner1 s e) s) > 0 ∧ cornerClear avoid obs s (corner1 s e) e = true then
      if noneOr ed (fun d2 => decide (Pt.dot d2 (Pt.sub (corner1 s e) e) > 0)) = true then
        [s, corner1 s e, e]
      else sPart avoid obs sd s ed e
    else if Pt.dot sd (Pt.sub (corner2 s e) s) > 0 ∧
        cornerClear avoid obs s (corner2 s e) e = true then
      if noneOr ed (fun d2 => decide (Pt.dot d2 (Pt.sub (corner2 s e) e) > 0)) = true then
        [s, corner2 s e, e]
      else sPart avoid obs sd s ed e
    else sPart avoid obs sd s ed e

/-! ## Orchestrator (`RouteAnchors.make`, lines 241-273)

`make` drives `connect_simple` across the anchor sequence.  The pin and lead
resolution (`set_pin`, `set_lead`), the tip bookkeeping (`get_tip`) and the
final point assembly (`get_points`) live in the `QRoute` base class, which is
not part of this repository snapshot, so the orchestration is modelled from
the spec (section 4.4) around the loop that is in the source: one planning
call per anchor in supplied order starting from the lead-in point, then one
final call to the lead-out point, each leg appended with its first vertex
dropped. -/

/-- A directed route point: a position plus an optional direction
(`QRoutePoint`). -/
structure QRoutePoint where
  position : Pt
  direction : Option Pt

/-- Last element of a vertex list (structural helper). -/
def lastP : List Pt → Option Pt
  | [] => none
  | [p] => some p
  | _ :: p :: rest => lastP (p :: rest)

/-- Last two elements of a vertex list (structural helper). -/
def lastTwo : List Pt → Option (Pt × Pt)
  | [] => none
  | [_] => none
  | [p, q] => some (p, q)
  | _ :: p :: q :: rest => lastTwo (p :: q :: rest)

/-- Modelled from the spec: `QRoute.get_tip` is not in the source snapshot.
Section 3 defines the Tip as "the most recently placed Point of a
path-under-construction plus its outgoing direction (the direction from the
previous point to it)"; with fewer than two placed points the tip is still the
lead-in start point itself. -/
def tipOf (ms : QRoutePoint) (path : List Pt) : QRoutePoint :=
  match lastTwo path with
  | none => ms
  | some (p, q) => ⟨q, some (Pt.sub q p)⟩

/-- Modelled from the spec: the orchestration of `make` (lines 241-273) with
the pin/lead resolution of the absent `QRoute` base class abstracted away.
`plan` is the leg planner (`connect_simple` with its options fixed), `ms`/`me`
are the resolved `meander_start_point`/`meander_end_point`, and `anchors` the
ordered anchor coordinates.  Every anchor is planned from the current tip as
a direction-free `QRoutePoint(coord)` and contributes its vertices minus the
duplicated first one (`[1:]`), then one final leg reaches `me`.  The result
pairs the finished vertex list with the list of planned legs, one entry per
planning call. -/
def buildStep (plan : QRoutePoint → QRoutePoint → List Pt) (ms : QRoutePoint)
    (acc : List Pt × List (List Pt)) (coord : Pt) : List Pt × List (List Pt) :=
  (acc.1 ++ (plan (tipOf ms acc.1) ⟨coord, none⟩).tail,
   acc.2 ++ [plan (tipOf ms acc.1) ⟨coord, none⟩])

def build_path (plan : QRoutePoint → QRoutePoint → List Pt) (ms me : QRoutePoint)
    (anchors : List Pt) : List Pt × List (List Pt) :=
  let r := anchors.foldl (buildStep plan ms) ([ms.position], [])
  (r.1 ++ (plan (tipOf ms r.1) me).tail, r.2 ++ [plan (tipOf ms r.1) me])

theorem lastTwo_lastP (rest : List Pt) :
    ∀ x y : Pt, ∃ p q : Pt,
      lastTwo (x :: y :: rest) = some (p, q) ∧ lastP (x :: y :: rest) = some q := by
  induction rest with
  | nil => exact fun x y => ⟨x, y, rfl, rfl⟩
  | cons z rest ih =>
    intro x y
    obtain ⟨p, q, h1, h2⟩ := ih y z
    exact ⟨p, q, h1, h2⟩

/-- On a list with at least two elements the tip position is the last
element. -/
theorem tipOf_position {ms : QRoutePoint} {x y : Pt} {rest : List Pt} :
    lastP (x :: y :: rest) = some ((tipOf ms (x :: y :: rest)).position) := by
  obtain ⟨p, q, h1, h2⟩ := lastTwo_lastP rest x y
  rw [tipOf, h1, h2]

theorem lastP_append_cons (l : List Pt) :
    ∀ (x : Pt) (l2 : List Pt), lastP (l ++ x :: l2) = lastP (x :: l2) := by
  induction l with
  | nil => exact fun x l2 => rfl
  | cons a l ih =>
    intro x l2
    cases l with
    | nil => rfl
    | cons b l3 => exact ih x l2

/-- The invariant `build_path` maintains leg by leg: the accumulated vertex
list starts at the lead-in position, its last vertex is the current tip
position, and its length is one plus the legs' contributed vertex counts. -/
def PathInv (ms : QRoutePoint) (acc : List Pt × List (List Pt)) : Prop :=
  (∃ t2, acc.1 = ms.position :: t2) ∧
  lastP acc.1 = some ((tipOf ms acc.1).position) ∧
  acc.1.length = 1 + (acc.2.map fun l => l.length - 1).sum

/-- One planning step preserves the invariant, provided the planner honors the
leg contract (non-empty, starts at the given start, ends at the given end);
moreover the stitched list then ends at the leg's target. -/
theorem build_step_inv (plan : QRoutePoint → QRoutePoint → List Pt) (ms : QRoutePoint)
    (hplan : ∀ s t, plan s t ≠ [] ∧ (plan s t).head? = some s.position ∧
      lastP (plan s t) = some t.position)
    (acc : List Pt × List (List Pt)) (tgt : QRoutePoint) (h : PathInv ms acc) :
    PathInv ms (acc.1 ++ (plan (tipOf ms acc.1) tgt).tail,
      acc.2 ++ [plan (tipOf ms acc.1) tgt]) ∧
    lastP (acc.1 ++ (plan (tipOf ms acc.1) tgt).tail) = some tgt.position := by
  obtain ⟨⟨t2, ht2⟩, hlast, hlen⟩ := h
  obtain ⟨hne, hhead, hlastleg⟩ := hplan (tipOf ms acc.1) tgt
  obtain ⟨v, vt, hv⟩ : ∃ v vt, plan (tipOf ms acc.1) tgt = v :: vt := by
    cases hq : plan (tipOf ms acc.1) tgt with
    | nil => exact absurd hq hne
    | cons v vt => exact ⟨v, vt, rfl⟩
  rw [hv] at hhead hlastleg
  have hvtip : v = (tipOf ms acc.1).position := Option.some.inj hhead
  cases vt with
  | nil =>
    have hvtgt : v = tgt.position := Option.some.inj hlastleg
    have hnew : acc.1 ++ (plan (tipOf ms acc.1) tgt).tail = acc.1 := by
      rw [hv, List.tail_cons, List.append_nil]
    rw [hnew]
    have hlast2 : lastP acc.1 = some tgt.position := by
      rw [hlast, ← hvtip, hvtgt]
    refine ⟨⟨⟨t2, ht2⟩, hlast, ?_⟩, hlast2⟩
    rw [List.map_append, List.sum_append, hv]
    simp [hlen]
  | cons z zs =>
    have htail : (plan (tipOf ms acc.1) tgt).tail = z :: zs := by rw [hv, List.tail_cons]
    have hlastnew : lastP (acc.1 ++ (plan (tipOf ms acc.1) tgt).tail) = some tgt.position := by
      rw [htail, lastP_append_cons]
      exact hlastleg
    refine ⟨⟨⟨t2 ++ z :: zs, by rw [htail, ht2]; rfl⟩, ?_, ?_⟩, hlastnew⟩
    · cases hq : t2 ++ z :: zs with
      | nil => exact absurd hq (by simp)
      | cons w ws =>
        have hshape : acc.1 ++ (plan (tipOf ms acc.1) tgt).tail =
            ms.position :: w :: ws := by
          rw [htail, ht2, List.cons_append, hq]
        rw [hshape]
        exact tipOf_position
    · rw [List.length_append, List.map_append, List.sum_append, hv]
      simp only [List.map_cons, List.map_nil, List.sum_cons, List.sum_nil,
        List.length_cons, List.tail_cons, hlen]
      omega

/-- Folding the per-anchor step over any anchor list preserves the invariant
and adds one planned leg per anchor. -/
theorem build_foldl_inv (plan : QRoutePoint → QRoutePoint → List Pt) (ms : QRoutePoint)
    (hplan : ∀ s t, plan s t ≠ [] ∧ (plan s t).head? = some s.position ∧
      lastP (plan s t) = some t.position)
    (anchors : List Pt) :
    ∀ acc : List Pt × List (List Pt), PathInv ms acc →
      PathInv ms (anchors.foldl (buildStep plan ms) acc) ∧
      (anchors.foldl (buildStep plan ms) acc).2.length = acc.2.length + anchors.length := by
  induction anchors with
  | nil => exact fun acc h => ⟨h, rfl⟩
  | cons coord rest ih =>
    intro acc h
    have hstep := build_step_inv plan ms hplan acc ⟨coord, none⟩ h
    have hfold := ih (buildStep plan ms acc coord) hstep.1
    refine ⟨hfold.1, ?_⟩
    rw [List.foldl_cons, hfold.2]
    simp only [buildStep, List.length_append, List.length_cons, List.length_nil]
    omega

/-! ## Claims -/

/-- C5: `intersecting(a, b, c, d)` returns true if and only if the two closed
segments share at least one common point -- they cross, touch at an endpoint,
or overlap collinearly -- and false otherwise, in particular false for
parallel non-overlapping and for disjoint collinear segments, true for
overlapping collinear segments and for segments sharing an endpoint. -/
theorem c5_intersecting_iff_share (a b c d : Pt) :
    intersecting a b c d = true ↔ segShare a b c d :=
  intersecting_correct a b c d

/-- C9: `intersecting` is symmetric in its two segment arguments. -/
theorem c9_intersecting_symm (a b c d : Pt) :
    intersecting a b c d = intersecting c d a b := by
  have h1 := intersecting_correct a b c d
  have h2 := intersecting_correct c d a b
  rw [segShare_swap] at h1
  cases ha : intersecting a b c d <;> cases hb : intersecting c d a b
  · rfl
  · rw [ha] at h1
    rw [hb] at h2
    exact absurd (h1.mpr (h2.mp rfl)) Bool.false_ne_true
  · rw [ha] at h1
    rw [hb] at h2
    exact absurd (h2.mpr (h1.mp rfl)) Bool.false_ne_true
  · rfl

/-- C4 counterexample: a segment strictly inside the box crosses both
diagonals (so the claim's tested-segment list reports an intersection) yet
`unobstructed` returns true, because the code tests the four edges, not the
diagonals. -/
theorem c4_counterexample :
    (∃ kl ∈ claimTestedSegs ⟨0, 0, 2, 2⟩,
      intersecting ⟨1/2, 1⟩ ⟨3/2, 1⟩ kl.1 kl.2 = true) ∧
    unobstructed [⟨0, 0, 2, 2⟩] ⟨1/2, 1⟩ ⟨3/2, 1⟩ = true := by
  constructor
  · refine ⟨(⟨0, 0⟩, ⟨2, 2⟩), by norm_num [claimTestedSegs], ?_⟩
    norm_num [intersecting, vertCase, genCase, min_def, max_def]
  · norm_num [unobstructed, intersecting, vertCase, genCase, min_def, max_def]

/-- C4 (amended): `unobstructed` returns false exactly when some registered
obstacle's bounding box has one of its four tested corner-to-corner segments
-- the left, bottom, right and top edges -- intersecting the given segment. -/
theorem c4_unobstructed_false_iff (obs : List BBox) (s0 s1 : Pt) :
    unobstructed obs s0 s1 = false ↔
      ∃ box ∈ obs, ∃ kl ∈ sourceTestedSegs box, intersecting s0 s1 kl.1 kl.2 = true := by
  rw [unobstructed, List.all_eq_false]
  constructor
  · rintro ⟨box, hbox, hfail⟩
    rw [Bool.not_eq_true', Bool.not_eq_false] at hfail
    simp only [Bool.or_eq_true] at hfail
    rcases hfail with ((h | h) | h) | h
    · exact ⟨box, hbox, (⟨box.xmin, box.ymin⟩, ⟨box.xmin, box.ymax⟩),
        by simp [sourceTestedSegs], h⟩
    · exact ⟨box, hbox, (⟨box.xmin, box.ymin⟩, ⟨box.xmax, box.ymin⟩),
        by simp [sourceTestedSegs], h⟩
    · exact ⟨box, hbox, (⟨box.xmax, box.ymin⟩, ⟨box.xmax, box.ymax⟩),
        by simp [sourceTestedSegs], h⟩
    · exact ⟨box, hbox, (⟨box.xmin, box.ymax⟩, ⟨box.xmax, box.ymax⟩),
        by simp [sourceTestedSegs], h⟩
  · rintro ⟨box, hbox, kl, hkl, hint⟩
    refine ⟨box, hbox, ?_⟩
    rw [Bool.not_eq_true', Bool.not_eq_false]
    simp only [Bool.or_eq_true]
    fin_cases hkl
    · exact Or.inl (Or.inl (Or.inl hint))
    · exact Or.inl (Or.inl (Or.inr hint))
    · exact Or.inl (Or.inr hint)
    · exact Or.inr hint

/-- C10: a segment lying strictly inside an obstacle's bounding box, touching
none of the box's four sides, is invisible to the obstruction check: against a
registry holding that obstacle, `unobstructed` returns true. -/
theorem c10_interior_segment_unobstructed (box : BBox) (s0 s1 : Pt)
    (h0 : strictlyInside box s0) (h1 : strictlyInside box s1) :
    unobstructed [box] s0 s1 = true := by
  obtain ⟨h0a, h0b, h0c, h0d⟩ := h0
  obtain ⟨h1a, h1b, h1c, h1d⟩ := h1
  have hgen : ∀ c d : Pt, ¬ segShare s0 s1 c d → intersecting s0 s1 c d = false := by
    intro c d h
    cases hb : intersecting s0 s1 c d
    · rfl
    · exact absurd ((intersecting_correct s0 s1 c d).mp hb) h
  simp only [unobstructed, List.all_cons, List.all_nil, Bool.and_true]
  rw [Bool.not_eq_true']
  simp only [Bool.or_eq_false_iff]
  refine ⟨⟨⟨?_, ?_⟩, ?_⟩, ?_⟩ <;> refine hgen _ _ ?_ <;> rintro ⟨p, hp, hpe⟩ <;>
    obtain ⟨⟨hpx1, hpx2⟩, hpy1, hpy2⟩ := onSeg_bounds hp <;>
    obtain ⟨⟨hex1, hex2⟩, hey1, hey2⟩ := onSeg_bounds hpe <;>
    simp only [min_self, max_self] at hex1 hex2 hey1 hey2
  · have := lt_min h0a h1a
    linarith
  · have := lt_min h0c h1c
    linarith
  · have := max_lt h0b h1b
    linarith
  · have := max_lt h0d h1d
    linarith

/-- C10 witness at a concrete box and interior segment. -/
theorem c10_witness :
    strictlyInside ⟨0, 0, 4, 4⟩ ⟨1, 1⟩ ∧ strictlyInside ⟨0, 0, 4, 4⟩ ⟨2, 3⟩ ∧
    unobstructed [⟨0, 0, 4, 4⟩] ⟨1, 1⟩ ⟨2, 3⟩ = true :=
  ⟨by norm_num [strictlyInside], by norm_num [strictlyInside],
   c10_interior_segment_unobstructed ⟨0, 0, 4, 4⟩ ⟨1, 1⟩ ⟨2, 3⟩
     (by norm_num [strictlyInside]) (by norm_num [strictlyInside])⟩

/-- C8 counterexample: the claim asserts some degenerate input (a zero-length
segment, or two exactly-vertical segments) reaches a division site with a zero
divisor; in fact no input at all does, so in particular no degenerate one. -/
theorem c8_counterexample :
    ¬ ∃ a b c d : Pt, (a = b ∨ c = d ∨ (a.x = b.x ∧ c.x = d.x)) ∧
      (0 : ℚ) ∈ divisorsReached a b c d := by
  rintro ⟨a, b, c, d, -, hmem⟩
  exact divisorsReached_ne_zero a b c d hmem

/-- C8 (amended): degenerate inputs -- a zero-length segment or two
exactly-vertical segments -- are structurally diverted: every division site
`intersecting` reaches on them has a nonzero divisor (a zero-length segment is
classified as vertical, so divisions only ever divide by the non-vertical
segment's x-difference, and two vertical segments take the division-free
overlap branch). -/
theorem c8_degenerate_no_zero_division (a b c d : Pt)
    (_h : a = b ∨ c = d ∨ (a.x = b.x ∧ c.x = d.x)) :
    (0 : ℚ) ∉ divisorsReached a b c d :=
  divisorsReached_ne_zero a b c d

/-- C8 witness at a zero-length first segment. -/
theorem c8_witness :
    ((⟨0, 0⟩ : Pt) = ⟨0, 0⟩ ∨ (⟨1, 0⟩ : Pt) = ⟨2, 3⟩ ∨
      ((⟨0, 0⟩ : Pt).x = (⟨0, 0⟩ : Pt).x ∧ (⟨1, 0⟩ : Pt).x = (⟨2, 3⟩ : Pt).x)) ∧
    (0 : ℚ) ∉ divisorsReached ⟨0, 0⟩ ⟨0, 0⟩ ⟨1, 0⟩ ⟨2, 3⟩ :=
  ⟨Or.inl rfl, c8_degenerate_no_zero_division ⟨0, 0⟩ ⟨0, 0⟩ ⟨1, 0⟩ ⟨2, 3⟩ (Or.inl rfl)⟩

/-- C7: whenever `connect_simple` returns a non-empty vertex list, its first
element is exactly the start position and its last element exactly the end
position. -/
theorem relaxedPart_endpoints (avoid : Bool) (obs : List BBox) (sd s : Pt)
    (ed : Option Pt) (e : Pt) (h : relaxedPart avoid obs sd s ed e ≠ []) :
    (relaxedPart avoid obs sd s ed e).head? = some s ∧
      lastP (relaxedPart avoid obs sd s ed e) = some e := by
  rw [relaxedPart] at h ⊢
  split_ifs at h ⊢ <;> first
    | exact ⟨rfl, rfl⟩
    | exact absurd rfl h

theorem sPart_endpoints (avoid : Bool) (obs : List BBox) (sd s : Pt)
    (ed : Option Pt) (e : Pt) (h : sPart avoid obs sd s ed e ≠ []) :
    (sPart avoid obs sd s ed e).head? = some s ∧
      lastP (sPart avoid obs sd s ed e) = some e := by
  rw [sPart] at h ⊢
  split_ifs at h ⊢ <;> first
    | exact ⟨rfl, rfl⟩
    | exact relaxedPart_endpoints avoid obs sd s ed e h

theorem c7_connect_simple_endpoints (avoid : Bool) (obs : List BBox) (sd s : Pt)
    (ed : Option Pt) (e : Pt) (h : connect_simple avoid obs sd s ed e ≠ []) :
    (connect_simple avoid obs sd s ed e).head? = some s ∧
      lastP (connect_simple avoid obs sd s ed e) = some e := by
  rw [connect_simple] at h ⊢
  split_ifs at h ⊢ <;> first
    | exact ⟨rfl, rfl⟩
    | exact absurd rfl h
    | exact sPart_endpoints avoid obs sd s ed e h

/-- C7 witness at a concrete aligned pair. -/
theorem c7_witness :
    connect_simple false [] ⟨1, 0⟩ ⟨0, 0⟩ none ⟨2, 0⟩ ≠ [] ∧
    (connect_simple false [] ⟨1, 0⟩ ⟨0, 0⟩ none ⟨2, 0⟩).head? = some ⟨0, 0⟩ ∧
    lastP (connect_simple false [] ⟨1, 0⟩ ⟨0, 0⟩ none ⟨2, 0⟩) = some ⟨2, 0⟩ := by
  have hres : connect_simple false [] ⟨1, 0⟩ ⟨0, 0⟩ none ⟨2, 0⟩ = [⟨0, 0⟩, ⟨2, 0⟩] := by
    norm_num [connect_simple, Pt.dot, Pt.sub, noneOr]
  have hne : connect_simple false [] ⟨1, 0⟩ ⟨0, 0⟩ none ⟨2, 0⟩ ≠ [] := by
    rw [hres]
    exact List.cons_ne_nil _ _
  exact ⟨hne, c7_connect_simple_endpoints false [] ⟨1, 0⟩ ⟨0, 0⟩ none ⟨2, 0⟩ hne⟩

/-- C2 counterexample: collinear endpoints, strict start alignment, and a
strictly positive end-direction dot product -- the claim's hypotheses -- yet
the source returns the empty path, because line 179 demands
`np.dot(end - start, end_direction) <= 0`. -/
theorem c2_counterexample :
    ((⟨0, 0⟩ : Pt).y = (⟨2, 0⟩ : Pt).y) ∧
    Pt.dot ⟨1, 0⟩ (Pt.sub ⟨2, 0⟩ ⟨0, 0⟩) > 0 ∧
    Pt.dot (Pt.sub ⟨2, 0⟩ ⟨0, 0⟩) ⟨1, 0⟩ > 0 ∧
    connect_simple false [] ⟨1, 0⟩ ⟨0, 0⟩ (some ⟨1, 0⟩) ⟨2, 0⟩ = [] := by
  refine ⟨rfl, by norm_num [Pt.dot, Pt.sub], by norm_num [Pt.dot, Pt.sub], ?_⟩
  norm_num [connect_simple, Pt.dot, Pt.sub, noneOr]

/-- C2 (amended): for endpoints sharing an x or y coordinate, if the start
constraint holds strictly and the end constraint of the source holds --
`end.direction` absent or `dot(end - start, end.direction) ≤ 0` -- then
`connect_simple` returns the 2-point path `[start, end]`. -/
theorem c2_collinear_direct (avoid : Bool) (obs : List BBox) (sd s : Pt) (ed : Option Pt)
    (e : Pt) (hshare : s.x = e.x ∨ s.y = e.y)
    (hstart : Pt.dot sd (Pt.sub e s) > 0)
    (hend : ∀ d2, ed = some d2 → Pt.dot (Pt.sub e s) d2 ≤ 0) :
    connect_simple avoid obs sd s ed e = [s, e] := by
  have hc : Pt.dot sd (Pt.sub e s) ≥ 0 ∧
      noneOr ed (fun d2 => decide (Pt.dot (Pt.sub e s) d2 ≤ 0)) = true := by
    refine ⟨le_of_lt hstart, ?_⟩
    cases ed with
    | none => rfl
    | some d2 => exact decide_eq_true (hend d2 rfl)
  rw [connect_simple, if_pos hshare, if_pos hc]

/-- C2 witness at a concrete aligned pair with no end direction. -/
theorem c2_witness :
    Pt.dot ⟨1, 0⟩ (Pt.sub ⟨5, 0⟩ ⟨0, 0⟩) > 0 ∧
    connect_simple false [] ⟨1, 0⟩ ⟨0, 0⟩ none ⟨5, 0⟩ = [⟨0, 0⟩, ⟨5, 0⟩] :=
  ⟨by norm_num [Pt.dot, Pt.sub],
   c2_collinear_direct false [] ⟨1, 0⟩ ⟨0, 0⟩ none ⟨5, 0⟩ (Or.inr rfl)
     (by norm_num [Pt.dot, Pt.sub]) (fun d2 h => Option.noConfusion h)⟩

/-- C3 counterexample: corner1's start test passes strictly but its end test
fails, and every perfect-corner2 condition holds; the source then skips the
`elif` for corner2 and the relaxed corner1 fallback wins, so the result is the
L via corner1, not the claimed L via corner2. -/
theorem c3_counterexample :
    Pt.dot ⟨1, 1⟩ (Pt.sub (corner1 ⟨0, 0⟩ ⟨2, 1⟩) ⟨0, 0⟩) > 0 ∧
    ¬ (Pt.dot ⟨0, -1⟩ (Pt.sub (corner1 ⟨0, 0⟩ ⟨2, 1⟩) ⟨2, 1⟩) > 0) ∧
    Pt.dot ⟨1, 1⟩ (Pt.sub (corner2 ⟨0, 0⟩ ⟨2, 1⟩) ⟨0, 0⟩) > 0 ∧
    Pt.dot ⟨0, -1⟩ (Pt.sub (corner2 ⟨0, 0⟩ ⟨2, 1⟩) ⟨2, 1⟩) > 0 ∧
    connect_simple false [] ⟨1, 1⟩ ⟨0, 0⟩ (some ⟨0, -1⟩) ⟨2, 1⟩ =
      [⟨0, 0⟩, corner1 ⟨0, 0⟩ ⟨2, 1⟩, ⟨2, 1⟩] ∧
    connect_simple false [] ⟨1, 1⟩ ⟨0, 0⟩ (some ⟨0, -1⟩) ⟨2, 1⟩ ≠
      [⟨0, 0⟩, corner2 ⟨0, 0⟩ ⟨2, 1⟩, ⟨2, 1⟩] := by
  norm_num [connect_simple, corner1, corner2, corner3, corner4, corner5, corner6,
    stopDirection, sPart, relaxedPart, cornerClear, sClear, noneOr, Pt.dot, Pt.sub]

/-- C3 (amended): whenever corner1's outer guard (strict start-direction test
plus collision flag) fails and every perfect-corner2 condition holds,
`connect_simple` returns `[start, corner2, end]`.  (When corner1's guard
passes but its end test fails, the source skips the corner2 `elif` entirely
and a later candidate can win instead.) -/
theorem c3_corner2_perfect (avoid : Bool) (obs : List BBox) (sd s : Pt) (ed : Option Pt)
    (e : Pt) (hx : s.x ≠ e.x) (hy : s.y ≠ e.y)
    (h1 : ¬ (Pt.dot sd (Pt.sub (corner1 s e) s) > 0 ∧
      cornerClear avoid obs s (corner1 s e) e = true))
    (h2 : Pt.dot sd (Pt.sub (corner2 s e) s) > 0)
    (h3 : cornerClear avoid obs s (corner2 s e) e = true)
    (h4 : noneOr ed (fun d2 => decide (Pt.dot d2 (Pt.sub (corner2 s e) e) > 0)) = true) :
    connect_simple avoid obs sd s ed e = [s, corner2 s e, e] := by
  rw [connect_simple, if_neg (not_or.mpr ⟨hx, hy⟩), if_neg h1, if_pos ⟨h2, h3⟩, if_pos h4]

/-- C3 witness: corner1's guard fails outright and corner2 is perfect. -/
theorem c3_witness :
    Pt.dot ⟨1, -1⟩ (Pt.sub (corner2 ⟨0, 0⟩ ⟨2, 1⟩) ⟨0, 0⟩) > 0 ∧
    connect_simple false [] ⟨1, -1⟩ ⟨0, 0⟩ none ⟨2, 1⟩ =
      [⟨0, 0⟩, corner2 ⟨0, 0⟩ ⟨2, 1⟩, ⟨2, 1⟩] :=
  ⟨by norm_num [Pt.dot, Pt.sub, corner2],
   c3_corner2_perfect false [] ⟨1, -1⟩ ⟨0, 0⟩ none ⟨2, 1⟩ (by norm_num) (by norm_num)
     (by norm_num [Pt.dot, Pt.sub, corner1, cornerClear])
     (by norm_num [Pt.dot, Pt.sub, corner2]) rfl rfl⟩

/-- C1: with `avoid_collision` on and an obstacle bounding box fully
straddling the corridor between two aligned collinear endpoints, the source
still returns the direct 2-point path: the collinear branch (lines 175-181)
performs no collision check, although the direct segment intersects the box
(`unobstructed` is false on it). -/
theorem c1_collinear_branch_skips_collision_check :
    connect_simple true [⟨1, -1, 2, 1⟩] ⟨1, 0⟩ ⟨0, 0⟩ none ⟨4, 0⟩ = [⟨0, 0⟩, ⟨4, 0⟩] ∧
    unobstructed [⟨1, -1, 2, 1⟩] ⟨0, 0⟩ ⟨4, 0⟩ = false := by
  constructor
  · norm_num [connect_simple, Pt.dot, Pt.sub, noneOr]
  · norm_num [unobstructed, intersecting, vertCase, genCase, min_def, max_def]

/-- C6: for an anchor list of length N the orchestration issues exactly N+1
leg-planning calls (one per anchor in supplied order from the lead-in point,
plus one final leg to the lead-out point); under the leg contract the finished
path is the concatenation of the legs with each first vertex dropped, so its
vertex count is one plus the sum of per-leg contributions and its first and
last vertices are the overall start and end. -/
theorem c6_make_legs (plan : QRoutePoint → QRoutePoint → List Pt) (ms me : QRoutePoint)
    (anchors : List Pt)
    (hplan : ∀ s t, plan s t ≠ [] ∧ (plan s t).head? = some s.position ∧
      lastP (plan s t) = some t.position) :
    (build_path plan ms me anchors).2.length = anchors.length + 1 ∧
    (build_path plan ms me anchors).1.length =
      1 + ((build_path plan ms me anchors).2.map fun l => l.length - 1).sum ∧
    (build_path plan ms me anchors).1.head? = some ms.position ∧
    lastP (build_path plan ms me anchors).1 = some me.position := by
  have hinit : PathInv ms ([ms.position], []) := ⟨⟨[], rfl⟩, rfl, rfl⟩
  obtain ⟨hinv, hcount⟩ := build_foldl_inv plan ms hplan anchors ([ms.position], []) hinit
  have hfinal := build_step_inv plan ms hplan
    (anchors.foldl (buildStep plan ms) ([ms.position], [])) me hinv
  have hbp : build_path plan ms me anchors =
      ((anchors.foldl (buildStep plan ms) ([ms.position], [])).1 ++
        (plan (tipOf ms (anchors.foldl (buildStep plan ms) ([ms.position], [])).1) me).tail,
       (anchors.foldl (buildStep plan ms) ([ms.position], [])).2 ++
        [plan (tipOf ms (anchors.foldl (buildStep plan ms) ([ms.position], [])).1) me]) := rfl
  rw [hbp]
  obtain ⟨⟨t2, ht2⟩, -, hlen⟩ := hfinal.1
  refine ⟨?_, hlen, ?_, hfinal.2⟩
  · simp only [List.length_append, List.length_cons, List.length_nil]
    simp only [List.length_nil] at hcount
    omega
  · show ((anchors.foldl (buildStep plan ms) ([ms.position], [])).1 ++
      (plan (tipOf ms (anchors.foldl (buildStep plan ms) ([ms.position], [])).1) me).tail).head?
      = some ms.position
    rw [show ((anchors.foldl (buildStep plan ms) ([ms.position], [])).1 ++
      (plan (tipOf ms (anchors.foldl (buildStep plan ms) ([ms.position], [])).1) me).tail)
      = ms.position :: t2 from ht2]
    rfl

/-- C6 witness with a 2-anchor list and the straight-line planner. -/
theorem c6_witness :
    (build_path (fun s t => [s.position, t.position]) ⟨⟨0, 0⟩, none⟩ ⟨⟨3, 1⟩, none⟩
        [⟨1, 0⟩, ⟨2, 2⟩]).2.length = 3 ∧
    (build_path (fun s t => [s.position, t.position]) ⟨⟨0, 0⟩, none⟩ ⟨⟨3, 1⟩, none⟩
        [⟨1, 0⟩, ⟨2, 2⟩]).1.head? = some ⟨0, 0⟩ ∧
    lastP (build_path (fun s t => [s.position, t.position]) ⟨⟨0, 0⟩, none⟩ ⟨⟨3, 1⟩, none⟩
        [⟨1, 0⟩, ⟨2, 2⟩]).1 = some ⟨3, 1⟩ := by
  have h := c6_make_legs (fun s t => [s.position, t.position]) ⟨⟨0, 0⟩, none⟩ ⟨⟨3, 1⟩, none⟩
    [⟨1, 0⟩, ⟨2, 2⟩] (fun s t => ⟨List.cons_ne_nil _ _, rfl, rfl⟩)
  exact ⟨h.1, h.2.2.1, h.2.2.2⟩
